import Mathlib

/-!
Verification of the incremental-build coordinator of karma-esbuild.

The development shallowly embeds the two core components:

* `Bundler` (src/src/bundle.ts): one entry point's build unit, with a
  dirty flag, a `buildsInProgress` counter, a replaceable single-shot
  deferred, and an incremental backend session.
* `BundlerMap` (the registry source file, `BundlerMap` class): the keyed
  collection of units with a global dirty flag and a synchronization
  barrier (`getOrInit` awaits the map's deferred, `sync` propagates the
  dirty bit and releases the barrier).

JavaScript runs the bodies of these methods atomically between `await`
suspension points, on a single thread.  The embedding therefore models
each synchronous run-to-completion segment as one atomic step of a state
machine, and exposes the scheduling freedom (when calls arrive, in which
order in-flight compiles finish, when suspended tasks resume) as an
event trace chosen by an adversarial scheduler:

* `UEvent.dirty` / `UEvent.write` / `UEvent.stop`: a caller invokes the
  method; the step performs the method's synchronous prefix.
* `UEvent.complete bid out`: the backend compile of in-flight build
  `bid` settles with outcome `out`; the step runs the continuation of
  the `write` call that started this build (the code after
  `await this.bundle()`), which is a single microtask cascade.
* `UEvent.resumeStop`: a `stop` call suspended on the unit's deferred
  resumes once that deferred's promise has settled.

The `Deferred` helper of src/src/utils.ts is not part of the provided
sources; following the spec's design note (a replaceable single-shot
future: resolved exactly once, either with a concrete value or by
chaining to another future), a deferred is an identifier whose
resolution, once recorded, never changes (`resolveOnce`), and whose
observable settlement chases resolution chains (`settlesF`).  Resolving
a deferred with its own promise is a chaining cycle: in JavaScript the
promise rejects with a TypeError and never yields a value; in the model
such a deferred never settles.
-/

namespace KarmaEsbuild

/-- Sourcemap of a bundled file: either produced by build `b`
(`processResult` parses it from the build's output files), or the empty
object `{}` produced by the catch branch of `bundle()`. -/
inductive SrcMap where
  | fromBuild (b : Nat)
  | empty
deriving DecidableEq

/-- Code of a bundled file: either the output of build `b` (source text
plus the sourceMappingURL comment), or the degraded stub
`console.error(<error message>)` produced by the catch branch. -/
inductive Code where
  | bundled (b : Nat)
  | errorStub (msg : String)
deriving DecidableEq

/-- A `BundledFile` as produced by `Bundler.bundle`: `{ code, map }`. -/
structure BundledFile where
  code : Code
  map : SrcMap
deriving DecidableEq

/-- Resolution of a deferred: with a concrete `BundledFile`, or by
chaining to the promise of another deferred (`deferred.resolve(promise)`). -/
inductive Res where
  | val (f : BundledFile)
  | chain (d : Nat)
deriving DecidableEq

/-- Value returned by a `write()` call: the promise of a deferred
(`return this.deferred.promise` / `return deferred.promise`), or a
directly returned build result (`return result`). -/
inductive WRet where
  | prom (d : Nat)
  | value (f : BundledFile)
deriving DecidableEq

/-- Outcome of one backend compile: success, or a raised error carrying
`err.message`. -/
inductive Outcome where
  | ok
  | err (msg : String)
deriving DecidableEq

/-- An in-flight build: its identifier, the deferred captured by the
`write()` call that started it (`const { deferred } = this`), and the
identifier of that `write()` call. -/
structure Build where
  id : Nat
  captured : Nat
  wid : Nat
deriving DecidableEq

/-- Association-list lookup with `Nat` keys; later entries are shadowed
by earlier ones, and steps prepend, so the first hit is the current
binding. -/
def find2 {α : Type} (k : Nat) : List (Nat × α) → Option α
  | [] => none
  | (k', a) :: rest => if k = k' then some a else find2 k rest

/-- State of one `Bundler` (src/src/bundle.ts), plus observation fields.

Source fields: `dirty` (`_dirty`), `cur` (the identity of the current
`this.deferred`), `bip` (`buildsInProgress`), `incremental`
(`incrementalBuild !== null`).

`resolved` records every deferred resolution performed so far (a
deferred, once resolved, never changes).  `inflight` records the builds
whose backend compile has not settled yet.  The remaining fields are
observation instrumentation: `nextDef`/`nextBuild` are fresh-name
counters, `writeRet` records what each `write()` call returned,
`compiles` counts backend compile invocations, `lastCompleted` holds the
artifact of the most recently settled compile, `errLog` the messages
passed to `log.error`, `stopWait`/`stopDone` track suspended and
completed `stop()` calls, and `disposeCount` counts
`incrementalBuild.rebuild.dispose()` calls. -/
structure UState where
  dirty : Bool
  cur : Nat
  nextDef : Nat
  resolved : List (Nat × Res)
  bip : Nat
  inflight : List Build
  nextBuild : Nat
  incremental : Bool
  disposeCount : Nat
  stopWait : List (Nat × Nat)
  stopDone : List Nat
  writeRet : List (Nat × WRet)
  compiles : Nat
  lastCompleted : Option BundledFile
  errLog : List String
deriving DecidableEq

/-- Initial `Bundler` state: `_dirty = true`, a fresh unresolved
deferred, no builds in progress, no incremental session. -/
def initU : UState :=
  { dirty := true, cur := 0, nextDef := 1, resolved := [], bip := 0,
    inflight := [], nextBuild := 0, incremental := false, disposeCount := 0,
    stopWait := [], stopDone := [], writeRet := [], compiles := 0,
    lastCompleted := none, errLog := [] }

/-- `Deferred.resolve`: a promise resolves at most once; a second call
is a no-op. -/
def resolveOnce (res : List (Nat × Res)) (d : Nat) (r : Res) : List (Nat × Res) :=
  match find2 d res with
  | some _ => res
  | none => (d, r) :: res

/-- Chase a resolution chain for up to `fuel` links.  `settlesF` is
`some f` exactly when the deferred's promise eventually delivers the
concrete file `f`; a chaining cycle (or an unresolved link) never
settles. -/
def settlesF (res : List (Nat × Res)) : Nat → Nat → Option BundledFile
  | 0, _ => none
  | fuel + 1, d =>
    match find2 d res with
    | some (Res.val f) => some f
    | some (Res.chain e) => settlesF res fuel e
    | none => none

/-- Settlement of deferred `d` in state `s` (the fuel `s.nextDef` bounds
the number of deferreds ever created, hence any acyclic chain length). -/
def settles (s : UState) (d : Nat) : Option BundledFile :=
  settlesF s.resolved s.nextDef d

/-- `Bundler.dirty()`: `if (this._dirty) return; this._dirty = true;
this.deferred = new Deferred();` -/
def dirtyU (s : UState) : UState :=
  if s.dirty then s
  else { s with dirty := true, cur := s.nextDef, nextDef := s.nextDef + 1 }

/-- A `write()`-call identifier already in use (guard keeping the
instrumentation well formed; a fresh identifier is chosen per call). -/
def widUsed (s : UState) (w : Nat) : Bool :=
  (find2 w s.writeRet).isSome || s.inflight.any (fun b => b.wid == w)

/-- Synchronous prefix of `Bundler.write()`:
`if (!this._dirty) return this.deferred.promise;` then
`this.buildsInProgress++`, `const { deferred } = this`, and the
synchronous prefix of `this.bundle()` (which sets `this._dirty = false`
and starts the backend compile before suspending on it). -/
def writeU (s : UState) (w : Nat) : UState :=
  if widUsed s w then s
  else if s.dirty = false then { s with writeRet := (w, WRet.prom s.cur) :: s.writeRet }
  else
    { s with
      bip := s.bip + 1, dirty := false,
      inflight := s.inflight ++ [{ id := s.nextBuild, captured := s.cur, wid := w }],
      nextBuild := s.nextBuild + 1, compiles := s.compiles + 1 }

/-- Look up an in-flight build by identifier. -/
def findBuild (bid : Nat) : List Build → Option Build
  | [] => none
  | b :: rest => if b.id = bid then some b else findBuild bid rest

/-- The backend compile of build `bid` settles with outcome `out`: the
continuation of `bundle()` runs (`processResult`, or the catch branch
which logs `err.message` and returns the degraded stub; a first
successful `esbuild.build` installs the incremental session), then the
continuation of the `write()` call that started the build:
`this.buildsInProgress--`, and either
`deferred.resolve(this.deferred.promise)` (when
`buildsInProgress > 0 || this._dirty`, i.e. the result was superseded)
or `deferred.resolve(result)`. -/
def completeU (s : UState) (bid : Nat) (out : Outcome) : UState :=
  match findBuild bid s.inflight with
  | none => s
  | some b =>
    let s1 := { s with inflight := s.inflight.filter (fun x => x.id != bid) }
    let art : BundledFile :=
      match out with
      | Outcome.ok => { code := Code.bundled bid, map := SrcMap.fromBuild bid }
      | Outcome.err m => { code := Code.errorStub m, map := SrcMap.empty }
    let s2 :=
      match out with
      | Outcome.ok => { s1 with incremental := true }
      | Outcome.err m => { s1 with errLog := m :: s1.errLog }
    let bip' := s2.bip - 1
    let s3 := { s2 with bip := bip', lastCompleted := some art }
    if bip' > 0 || s3.dirty then
      { s3 with
        resolved := resolveOnce s3.resolved b.captured (Res.chain s3.cur),
        writeRet := (b.wid, WRet.prom b.captured) :: s3.writeRet }
    else
      { s3 with
        resolved := resolveOnce s3.resolved b.captured (Res.val art),
        writeRet := (b.wid, WRet.value art) :: s3.writeRet }

/-- `Bundler.stop()`: if `buildsInProgress > 0 || this._dirty`, suspend
on `this.deferred.promise`; otherwise dispose the incremental session
(if any) and finish. -/
def stopU (s : UState) (sid : Nat) : UState :=
  if (find2 sid s.stopWait).isSome || s.stopDone.contains sid then s
  else if s.bip > 0 || s.dirty then { s with stopWait := (sid, s.cur) :: s.stopWait }
  else
    let s1 := if s.incremental then { s with disposeCount := s.disposeCount + 1 } else s
    { s1 with incremental := false, stopDone := sid :: s1.stopDone }

/-- A suspended `stop()` call resumes once the deferred it awaits has
settled; it then runs `this.incrementalBuild?.rebuild.dispose();
this.incrementalBuild = null;`. -/
def resumeStopU (s : UState) (sid : Nat) : UState :=
  match find2 sid s.stopWait with
  | none => s
  | some d =>
    match settles s d with
    | none => s
    | some _ =>
      let s1 := { s with stopWait := s.stopWait.filter (fun x => x.1 != sid) }
      let s2 := if s1.incremental then { s1 with disposeCount := s1.disposeCount + 1 } else s1
      { s2 with incremental := false, stopDone := sid :: s2.stopDone }

/-- Scheduler events for one `Bundler`. -/
inductive UEvent where
  | dirty
  | write (w : Nat)
  | complete (bid : Nat) (out : Outcome)
  | stop (sid : Nat)
  | resumeStop (sid : Nat)
deriving DecidableEq

/-- One atomic step of the unit. A disabled event leaves the state
unchanged. -/
def ustep (s : UState) : UEvent → UState
  | UEvent.dirty => dirtyU s
  | UEvent.write w => writeU s w
  | UEvent.complete b o => completeU s b o
  | UEvent.stop sid => stopU s sid
  | UEvent.resumeStop sid => resumeStopU s sid

/-- Run an event trace from a given state. -/
def urunFrom (s : UState) (es : List UEvent) : UState := es.foldl ustep s

/-- Run an event trace from the initial `Bundler` state. -/
def urun (es : List UEvent) : UState := urunFrom initU es

/-- Is the event a `write()` call? -/
def isWrite : UEvent → Bool
  | UEvent.write _ => true
  | _ => false

/-- Guard for well-sequenced traces: a `write` event may only occur
when no build is in flight. -/
def evGuard (s : UState) (e : UEvent) : Bool :=
  !isWrite e || s.inflight.isEmpty

/-- Traces in which no `write()` call arrives while a build is in
flight (every `write` event happens with `inflight` empty). -/
def writesIdle : UState → List UEvent → Bool
  | _, [] => true
  | s, e :: es => evGuard s e && writesIdle (ustep s e) es

/-- Traces containing no `write` event at all. -/
def noWriteEv (es : List UEvent) : Bool :=
  es.all (fun e => !isWrite e)

/-! ### The registry: `BundlerMap`

State of the `BundlerMap` class (registry source file): a `_dirty` flag,
a replaceable void deferred gating asynchronous lookups, the key → unit
map, and the `potentials` set.  `getOrInit` awaits the deferred's
promise before running `getOrInitSync`; `dirty()` sets the flag and
replaces the deferred; `sync()` clears the flag, calls `dirty()` on
every unit, and resolves the deferred. -/

/-- Association-list lookup with `String` keys. -/
def findK {α : Type} (k : String) : List (String × α) → Option α
  | [] => none
  | (k', a) :: rest => if k = k' then some a else findK k rest

/-- State of one `BundlerMap`.  Source fields: `mapDirty` (`_dirty`),
`mapCur` (identity of the current `this.deferred`), `mapResolved` (the
void deferreds resolved so far; resolution is permanent), `bundlers`,
`potentials`.  Instrumentation: `mapNextDef` is a fresh-name counter,
`blocked` the suspended asynchronous `getOrInit` calls (task id, file,
awaited deferred), `getRet` the file key each completed `getOrInit` /
`getOrInitSync` call returned a unit for. -/
structure MState where
  mapDirty : Bool
  mapCur : Nat
  mapNextDef : Nat
  mapResolved : List Nat
  bundlers : List (String × UState)
  potentials : List String
  blocked : List (Nat × String × Nat)
  getRet : List (Nat × String)
deriving DecidableEq

/-- Initial `BundlerMap` state: `_dirty = true` and a fresh unresolved
deferred. -/
def initM : MState :=
  { mapDirty := true, mapCur := 0, mapNextDef := 1, mapResolved := [],
    bundlers := [], potentials := [], blocked := [], getRet := [] }

/-- `BundlerMap.getOrInitSync(file)`: return the existing unit, or
create a fresh `Bundler`, insert it, and drop the key from
`potentials`. -/
def getOrInitSyncM (s : MState) (f : String) : MState :=
  match findK f s.bundlers with
  | some _ => s
  | none =>
    { s with
      bundlers := s.bundlers ++ [(f, initU)],
      potentials := s.potentials.filter (fun x => x != f) }

/-- A `getOrInit` task identifier already in use. -/
def tidUsed (s : MState) (t : Nat) : Bool :=
  s.blocked.any (fun x => x.1 == t) || (find2 t s.getRet).isSome

/-- Scheduler events for one `BundlerMap`. -/
inductive MEvent where
  | getOrInit (t : Nat) (f : String)
  | resumeGet (t : Nat)
  | getOrInitSync (t : Nat) (f : String)
  | mdirty
  | sync
  | addPotential (f : String)
deriving DecidableEq

/-- One atomic step of the registry.  `getOrInit` suspends on the
current deferred (`await this.deferred.promise`); `resumeGet` resumes a
suspended call once its awaited deferred is resolved, running
`getOrInitSync`; `mdirty` is `BundlerMap.dirty()`; `sync` is
`BundlerMap.sync()`; `addPotential` is `BundlerMap.addPotential`. -/
def mstep (s : MState) : MEvent → MState
  | MEvent.getOrInit t f =>
    if tidUsed s t then s else { s with blocked := (t, f, s.mapCur) :: s.blocked }
  | MEvent.resumeGet t =>
    match s.blocked.find? (fun x => x.1 == t) with
    | none => s
    | some x =>
      if s.mapResolved.contains x.2.2 then
        let s1 := getOrInitSyncM s x.2.1
        { s1 with
          blocked := s1.blocked.filter (fun z => z.1 != t),
          getRet := (t, x.2.1) :: s1.getRet }
      else s
  | MEvent.getOrInitSync t f =>
    if tidUsed s t then s
    else
      let s1 := getOrInitSyncM s f
      { s1 with getRet := (t, f) :: s1.getRet }
  | MEvent.mdirty =>
    if s.mapDirty then s
    else { s with mapDirty := true, mapCur := s.mapNextDef, mapNextDef := s.mapNextDef + 1 }
  | MEvent.sync =>
    if s.mapDirty = false then s
    else
      { s with
        mapDirty := false,
        bundlers := s.bundlers.map (fun kb => (kb.1, dirtyU kb.2)),
        mapResolved := s.mapCur :: s.mapResolved }
  | MEvent.addPotential f =>
    if (findK f s.bundlers).isSome then s
    else if s.potentials.contains f then s
    else { s with potentials := f :: s.potentials }

/-- Run a registry event trace from a given state. -/
def mrunFrom (s : MState) (es : List MEvent) : MState := es.foldl mstep s

/-- Run a registry event trace from the initial state. -/
def mrun (es : List MEvent) : MState := mrunFrom initM es

/-- Is the event a `sync()` call? -/
def isSyncEv : MEvent → Bool
  | MEvent.sync => true
  | _ => false

/-- Traces containing no `sync` event. -/
def noSync (es : List MEvent) : Bool :=
  es.all (fun e => !isSyncEv e)

/-! ### Concrete traces used by the claims -/

/-- `write()`; `dirty()`; `write()` while build 0 is still in flight;
build 1 completes before build 0 (the backend is free to finish the two
overlapping compiles in either order). -/
def T1 : List UEvent :=
  [UEvent.write 0, UEvent.dirty, UEvent.write 1,
   UEvent.complete 1 Outcome.ok, UEvent.complete 0 Outcome.ok]

/-- `write()`; `dirty()`; `write()` while build 0 is still in flight. -/
def T2 : List UEvent := [UEvent.write 0, UEvent.dirty, UEvent.write 1]

/-- `write()`; `dirty()` while the build runs; the build completes; no
further calls. -/
def T3 : List UEvent := [UEvent.write 0, UEvent.dirty, UEvent.complete 0 Outcome.ok]

/-- `T3` followed by a caller-issued `write()` and its build. -/
def T3b : List UEvent := T3 ++ [UEvent.write 1, UEvent.complete 1 Outcome.ok]

/-- `write()`; `stop()` while the build is in flight; the build
completes; the suspended `stop()` resumes. -/
def T4 : List UEvent :=
  [UEvent.write 0, UEvent.stop 5, UEvent.complete 0 Outcome.ok, UEvent.resumeStop 5]

/-- A failing build followed by `dirty()`, `write()` and a successful
rebuild. -/
def T5 : List UEvent :=
  [UEvent.write 0, UEvent.complete 0 (Outcome.err "boom"),
   UEvent.dirty, UEvent.write 1, UEvent.complete 1 Outcome.ok]

/-- Coalescing scenario: `write()`, its build completes (A1); `dirty()`;
two concurrent `write()` calls; the single new build completes (A2). -/
def T9 : List UEvent :=
  [UEvent.write 0, UEvent.complete 0 Outcome.ok, UEvent.dirty,
   UEvent.write 1, UEvent.write 2, UEvent.complete 1 Outcome.ok]

/-- Artifact of a successful build `b`. -/
def artifact (b : Nat) : BundledFile :=
  { code := Code.bundled b, map := SrcMap.fromBuild b }

/-- Degraded artifact produced by the catch branch for error message
`m`. -/
def degraded (m : String) : BundledFile :=
  { code := Code.errorStub m, map := SrcMap.empty }

/-! ### Helper lemmas: field preservation and resolution monotonicity -/

theorem dirtyU_same (s : UState) :
    (dirtyU s).resolved = s.resolved ∧ (dirtyU s).inflight = s.inflight
    ∧ (dirtyU s).bip = s.bip ∧ (dirtyU s).stopDone = s.stopDone
    ∧ (dirtyU s).writeRet = s.writeRet ∧ (dirtyU s).compiles = s.compiles
    ∧ (dirtyU s).lastCompleted = s.lastCompleted := by
  unfold dirtyU; split <;> simp

theorem stopU_same (s : UState) (sid : Nat) :
    (stopU s sid).resolved = s.resolved ∧ (stopU s sid).inflight = s.inflight
    ∧ (stopU s sid).bip = s.bip ∧ (stopU s sid).dirty = s.dirty
    ∧ (stopU s sid).cur = s.cur ∧ (stopU s sid).nextDef = s.nextDef
    ∧ (stopU s sid).writeRet = s.writeRet ∧ (stopU s sid).compiles = s.compiles
    ∧ (stopU s sid).lastCompleted = s.lastCompleted := by
  unfold stopU
  split
  · simp
  · split
    · simp
    · split <;> simp

theorem resumeStopU_same (s : UState) (sid : Nat) :
    (resumeStopU s sid).resolved = s.resolved
    ∧ (resumeStopU s sid).inflight = s.inflight
    ∧ (resumeStopU s sid).bip = s.bip ∧ (resumeStopU s sid).dirty = s.dirty
    ∧ (resumeStopU s sid).cur = s.cur ∧ (resumeStopU s sid).nextDef = s.nextDef
    ∧ (resumeStopU s sid).writeRet = s.writeRet
    ∧ (resumeStopU s sid).compiles = s.compiles
    ∧ (resumeStopU s sid).lastCompleted = s.lastCompleted := by
  unfold resumeStopU
  split
  · simp
  · split
    · simp
    · dsimp only
      split <;> simp

theorem completeU_not_found (s : UState) (bid : Nat) (o : Outcome)
    (h : findBuild bid s.inflight = none) : completeU s bid o = s := by
  unfold completeU; rw [h]

theorem find2_resolveOnce (res : List (Nat × Res)) (d e : Nat) (r r' : Res)
    (h : find2 d res = some r) : find2 d (resolveOnce res e r') = some r := by
  unfold resolveOnce
  cases hf : find2 e res with
  | some _ => exact h
  | none =>
    by_cases hd : d = e
    · subst hd; rw [h] at hf; cases hf
    · simpa [find2, hd] using h

theorem completeU_resolved_shape (s : UState) (bid : Nat) (o : Outcome) :
    (completeU s bid o).resolved = s.resolved
    ∨ ∃ c r', (completeU s bid o).resolved = resolveOnce s.resolved c r' := by
  unfold completeU
  cases hf : findBuild bid s.inflight with
  | none => exact Or.inl rfl
  | some b => cases o <;> dsimp only <;> split <;> exact Or.inr ⟨_, _, rfl⟩

theorem ustep_resolved_mono (s : UState) (e : UEvent) (d : Nat) (r : Res)
    (h : find2 d s.resolved = some r) : find2 d (ustep s e).resolved = some r := by
  cases e with
  | dirty => rw [ustep, (dirtyU_same s).1]; exact h
  | write w =>
    rw [ustep]; unfold writeU
    split
    · exact h
    · split <;> simpa using h
  | complete bid o =>
    rw [ustep]
    rcases completeU_resolved_shape s bid o with hs | ⟨c, r', hs⟩
    · rw [hs]; exact h
    · rw [hs]; exact find2_resolveOnce _ d c r r' h
  | stop sid => rw [ustep, (stopU_same s sid).1]; exact h
  | resumeStop sid => rw [ustep, (resumeStopU_same s sid).1]; exact h

theorem urunFrom_resolved_mono (E : List UEvent) (s : UState) (d : Nat) (r : Res)
    (h : find2 d s.resolved = some r) : find2 d (urunFrom s E).resolved = some r := by
  induction E generalizing s with
  | nil => exact h
  | cons e es ih => exact ih (ustep s e) (ustep_resolved_mono s e d r h)

theorem settlesF_self (res : List (Nat × Res)) (d : Nat)
    (h : find2 d res = some (Res.chain d)) :
    ∀ fuel, settlesF res fuel d = none := by
  intro fuel
  induction fuel with
  | zero => rfl
  | succ n ih => rw [settlesF, h]; exact ih

theorem find2_none_of_bound (res : List (Nat × Res)) (n : Nat)
    (h : ∀ p ∈ res, p.1 < n) : find2 n res = none := by
  induction res with
  | nil => rfl
  | cons p rest ih =>
    obtain ⟨k, v⟩ := p
    have hk : k < n := h (k, v) (by simp)
    have hne : n ≠ k := by omega
    simp only [find2]
    rw [if_neg hne]
    exact ih fun q hq => h q (by simp [hq])

theorem find2_resolveOnce_ne (res : List (Nat × Res)) (d c : Nat) (r : Res)
    (hne : d ≠ c) : find2 d (resolveOnce res c r) = find2 d res := by
  unfold resolveOnce
  cases find2 c res with
  | some _ => rfl
  | none => simp only [find2]; rw [if_neg hne]

theorem find2_resolveOnce_self (res : List (Nat × Res)) (c : Nat) (r : Res)
    (h : find2 c res = none) : find2 c (resolveOnce res c r) = some r := by
  unfold resolveOnce
  rw [h]
  simp [find2]

theorem resolveOnce_mem (res : List (Nat × Res)) (c : Nat) (r : Res) (p : Nat × Res)
    (h : p ∈ resolveOnce res c r) : p ∈ res ∨ p = (c, r) := by
  unfold resolveOnce at h
  split at h
  · exact Or.inl h
  · rcases List.mem_cons.mp h with h | h
    · exact Or.inr h
    · exact Or.inl h

theorem findBuild_mem (bid : Nat) (l : List Build) (b : Build)
    (h : findBuild bid l = some b) : b ∈ l ∧ b.id = bid := by
  induction l with
  | nil => cases h
  | cons x rest ih =>
    by_cases hx : x.id = bid
    · rw [findBuild, if_pos hx] at h
      cases h
      exact ⟨by simp, hx⟩
    · rw [findBuild, if_neg hx] at h
      obtain ⟨hm, hi⟩ := ih h
      exact ⟨by simp [hm], hi⟩

theorem eq_singleton_of_len_le_one {α : Type} (l : List α) (b : α)
    (hlen : l.length ≤ 1) (hmem : b ∈ l) : l = [b] := by
  cases l with
  | nil => cases hmem
  | cons x rest =>
    cases rest with
    | nil =>
      rcases List.mem_singleton.mp hmem with rfl
      rfl
    | cons y t => simp at hlen

/-! ### The quiescent-state invariant (well-sequenced traces)

`UInv` is maintained along every trace in which `write()` is never
called while a build is in flight (the `writesIdle` discipline).  It ties
`buildsInProgress` to the in-flight builds, bounds them by one, and
records the deferred bookkeeping: the fresh deferred of a dirty unit is
unresolved, the running build's captured deferred is the current one
(unless a `dirty()` superseded it), and a quiescent clean unit's
deferred is resolved with the artifact of the most recent build. -/
def UInv (s : UState) : Prop :=
  s.cur < s.nextDef
  ∧ (∀ p ∈ s.resolved, p.1 < s.nextDef)
  ∧ (∀ b ∈ s.inflight, b.captured < s.nextDef)
  ∧ s.bip = s.inflight.length
  ∧ s.inflight.length ≤ 1
  ∧ (s.dirty = true → find2 s.cur s.resolved = none)
  ∧ (∀ b ∈ s.inflight, s.dirty = false → b.captured = s.cur)
  ∧ (∀ b ∈ s.inflight, s.dirty = true → b.captured ≠ s.cur)
  ∧ (∀ b ∈ s.inflight, find2 b.captured s.resolved = none)
  ∧ (s.inflight = [] → s.dirty = false →
      ∃ f, find2 s.cur s.resolved = some (Res.val f) ∧ s.lastCompleted = some f)

theorem uinv_init : UInv initU := by
  refine ⟨by decide, ?_, ?_, rfl, by decide, fun _ => rfl, ?_, ?_, ?_, ?_⟩
  · intro p hp; cases hp
  · intro b hb; cases hb
  · intro b hb; cases hb
  · intro b hb; cases hb
  · intro b hb; cases hb
  · intro _ h2; cases h2

theorem uinv_dirty {s : UState} (h : UInv s) : UInv (dirtyU s) := by
  obtain ⟨i1, i2, i3, i4, i5, i6, i7, i8, i9, i10⟩ := h
  unfold dirtyU
  split
  · exact ⟨i1, i2, i3, i4, i5, i6, i7, i8, i9, i10⟩
  · refine ⟨by simp, ?_, ?_, i4, i5, ?_, ?_, ?_, i9, ?_⟩
    · intro p hp; have := i2 p hp; simp; omega
    · intro b hb; have := i3 b hb; simp; omega
    · intro _; exact find2_none_of_bound _ _ i2
    · intro b hb hfalse; cases hfalse
    · intro b hb _; have := i3 b hb; simp; omega
    · intro _ hfalse; cases hfalse

theorem uinv_write {s : UState} (w : Nat) (h : UInv s)
    (hempty : s.inflight.isEmpty = true) : UInv (writeU s w) := by
  obtain ⟨i1, i2, i3, i4, i5, i6, i7, i8, i9, i10⟩ := h
  have hnil : s.inflight = [] := by
    cases hl : s.inflight with
    | nil => rfl
    | cons x t => rw [hl] at hempty; cases hempty
  unfold writeU
  split
  · exact ⟨i1, i2, i3, i4, i5, i6, i7, i8, i9, i10⟩
  · split
    case isTrue hclean =>
      exact ⟨i1, i2, i3, i4, i5, i6, i7, i8, i9, i10⟩
    case isFalse hdirty =>
      have hd : s.dirty = true := by
        cases hdv : s.dirty
        · exact absurd hdv hdirty
        · rfl
      rw [hnil]
      refine ⟨i1, i2, ?_, ?_, by simp, ?_, ?_, ?_, ?_, ?_⟩
      · intro b hb
        simp only [List.nil_append, List.mem_singleton] at hb
        subst hb; exact i1
      · simp [i4, hnil]
      · intro hfalse; cases hfalse
      · intro b hb _
        simp only [List.nil_append, List.mem_singleton] at hb
        subst hb; rfl
      · intro b hb hfalse; cases hfalse
      · intro b hb
        simp only [List.nil_append, List.mem_singleton] at hb
        subst hb
        exact i6 hd
      · intro hfalse; cases hfalse

theorem uinv_stop {s : UState} (sid : Nat) (h : UInv s) : UInv (stopU s sid) := by
  obtain ⟨h1, h2, h3, h4, h5, h6, h7, h8, h9⟩ := stopU_same s sid
  unfold UInv
  rw [h1, h2, h3, h4, h5, h6, h9]
  exact h

theorem uinv_resumeStop {s : UState} (sid : Nat) (h : UInv s) :
    UInv (resumeStopU s sid) := by
  obtain ⟨h1, h2, h3, h4, h5, h6, h7, h8, h9⟩ := resumeStopU_same s sid
  unfold UInv
  rw [h1, h2, h3, h4, h5, h6, h9]
  exact h

theorem uinv_complete {s : UState} (bid : Nat) (o : Outcome) (h : UInv s) :
    UInv (completeU s bid o) := by
  obtain ⟨i1, i2, i3, i4, i5, i6, i7, i8, i9, i10⟩ := h
  unfold completeU
  cases hf : findBuild bid s.inflight with
  | none => exact ⟨i1, i2, i3, i4, i5, i6, i7, i8, i9, i10⟩
  | some b =>
    obtain ⟨hmem, hid⟩ := findBuild_mem bid s.inflight b hf
    have hsing : s.inflight = [b] := eq_singleton_of_len_le_one _ _ i5 hmem
    have hbip : s.bip = 1 := by rw [i4, hsing]; rfl
    have hfilter : List.filter (fun x => x.id != bid) s.inflight = [] := by
      rw [hsing]
      simp [List.filter_cons, hid]
    have hcap : b.captured < s.nextDef := i3 b hmem
    cases o with
    | ok =>
      dsimp only
      rw [hfilter]
      split
      case isTrue hcond =>
        have hd : s.dirty = true := by
          rw [hbip] at hcond
          simpa using hcond
        have hne : s.cur ≠ b.captured := Ne.symm (i8 b hmem hd)
        refine ⟨i1, ?_, ?_, ?_, by simp, ?_, ?_, ?_, ?_, ?_⟩
        · intro p hp
          rcases resolveOnce_mem _ _ _ p hp with hp | hp
          · exact i2 p hp
          · rw [hp]; exact hcap
        · intro b' hb'; cases hb'
        · simp [hbip]
        · intro _
          rw [find2_resolveOnce_ne _ _ _ _ hne]
          exact i6 hd
        · intro b' hb'; cases hb'
        · intro b' hb'; cases hb'
        · intro b' hb'; cases hb'
        · intro _ h2; rw [hd] at h2; cases h2
      case isFalse hcond =>
        have hd : s.dirty = false := by
          rw [hbip] at hcond
          simpa using hcond
        have hcc : b.captured = s.cur := i7 b hmem hd
        refine ⟨i1, ?_, ?_, ?_, by simp, ?_, ?_, ?_, ?_, ?_⟩
        · intro p hp
          rcases resolveOnce_mem _ _ _ p hp with hp | hp
          · exact i2 p hp
          · rw [hp]; exact hcap
        · intro b' hb'; cases hb'
        · simp [hbip]
        · intro hdt; rw [hd] at hdt; cases hdt
        · intro b' hb'; cases hb'
        · intro b' hb'; cases hb'
        · intro b' hb'; cases hb'
        · intro _ _
          refine ⟨_, ?_, rfl⟩
          rw [← hcc]
          exact find2_resolveOnce_self _ _ _ (i9 b hmem)
    | err m =>
      dsimp only
      rw [hfilter]
      split
      case isTrue hcond =>
        have hd : s.dirty = true := by
          rw [hbip] at hcond
          simpa using hcond
        have hne : s.cur ≠ b.captured := Ne.symm (i8 b hmem hd)
        refine ⟨i1, ?_, ?_, ?_, by simp, ?_, ?_, ?_, ?_, ?_⟩
        · intro p hp
          rcases resolveOnce_mem _ _ _ p hp with hp | hp
          · exact i2 p hp
          · rw [hp]; exact hcap
        · intro b' hb'; cases hb'
        · simp [hbip]
        · intro _
          rw [find2_resolveOnce_ne _ _ _ _ hne]
          exact i6 hd
        · intro b' hb'; cases hb'
        · intro b' hb'; cases hb'
        · intro b' hb'; cases hb'
        · intro _ h2; rw [hd] at h2; cases h2
      case isFalse hcond =>
        have hd : s.dirty = false := by
          rw [hbip] at hcond
          simpa using hcond
        have hcc : b.captured = s.cur := i7 b hmem hd
        refine ⟨i1, ?_, ?_, ?_, by simp, ?_, ?_, ?_, ?_, ?_⟩
        · intro p hp
          rcases resolveOnce_mem _ _ _ p hp with hp | hp
          · exact i2 p hp
          · rw [hp]; exact hcap
        · intro b' hb'; cases hb'
        · simp [hbip]
        · intro hdt; rw [hd] at hdt; cases hdt
        · intro b' hb'; cases hb'
        · intro b' hb'; cases hb'
        · intro b' hb'; cases hb'
        · intro _ _
          refine ⟨_, ?_, rfl⟩
          rw [← hcc]
          exact find2_resolveOnce_self _ _ _ (i9 b hmem)

theorem writesIdle_cons {s : UState} {e : UEvent} {es : List UEvent}
    (h : writesIdle s (e :: es) = true) :
    (∀ w, e = UEvent.write w → s.inflight.isEmpty = true)
    ∧ writesIdle (ustep s e) es = true := by
  rw [writesIdle, Bool.and_eq_true] at h
  refine ⟨?_, h.2⟩
  intro w hw
  have hg := h.1
  rw [hw] at hg
  rw [show evGuard s (UEvent.write w) = s.inflight.isEmpty from rfl] at hg
  exact hg

theorem uinv_run : ∀ (E : List UEvent) (s : UState),
    UInv s → writesIdle s E = true → UInv (urunFrom s E) := by
  intro E
  induction E with
  | nil => intro s h _; exact h
  | cons e es ih =>
    intro s h hws
    obtain ⟨hg, hrest⟩ := writesIdle_cons hws
    refine ih (ustep s e) ?_ hrest
    cases e with
    | dirty => exact uinv_dirty h
    | write w => exact uinv_write w h (hg w rfl)
    | complete bid o => exact uinv_complete bid o h
    | stop sid => exact uinv_stop sid h
    | resumeStop sid => exact uinv_resumeStop sid h

/-! ### Claim C1 -/

/-- C1: the freshness claim fails on `Bundler` (src/src/bundle.ts).  In
trace `T1` — `write()` starts build 0 on deferred 0; `dirty()` replaces
the deferred by deferred 1; a second `write()` starts build 1 capturing
deferred 1; build 1 finishes while build 0 is still in flight — the last
`write()` call returns the promise of deferred 1, and the completion
code sees `buildsInProgress > 0` and runs
`deferred.resolve(this.deferred.promise)` where `this.deferred` is still
the very deferred being resolved: deferred 1 is resolved with its own
promise (in JavaScript, a chaining cycle that rejects with a TypeError).
Consequently the future returned by the last `write()` never settles
with any build result, in this state and after every possible
continuation of the trace — it does not resolve with a result of a
build started at or after that `write()` call, refuting the claim. -/
theorem c1_freshness_bug :
    find2 1 (urun T1).writeRet = some (WRet.prom 1)
    ∧ find2 1 (urun T1).resolved = some (Res.chain 1)
    ∧ ∀ E : List UEvent, settles (urunFrom (urun T1) E) 1 = none := by
  refine ⟨by decide, by decide, fun E => ?_⟩
  have h : find2 1 (urunFrom (urun T1) E).resolved = some (Res.chain 1) :=
    urunFrom_resolved_mono E (urun T1) 1 (Res.chain 1) (by decide)
  exact settlesF_self _ 1 h _

/-- C1, witness: the never-settling conclusion of `c1_freshness_bug`
instantiated at the empty continuation and at a continuation that issues
further `dirty()` and `write()` calls. -/
theorem c1_freshness_bug_witness :
    settles (urunFrom (urun T1) []) 1 = none
    ∧ settles (urunFrom (urun T1) [UEvent.dirty, UEvent.write 7,
        UEvent.complete 2 Outcome.ok]) 1 = none :=
  ⟨c1_freshness_bug.2.2 [],
   c1_freshness_bug.2.2 [UEvent.dirty, UEvent.write 7, UEvent.complete 2 Outcome.ok]⟩

/-! ### Claim C2 -/

/-- C2, counterexample: `write()`; `dirty()`; `write()` while build 0 is
still in flight.  The second `write()` sees `_dirty` (re-set by the
`dirty()` call), increments `buildsInProgress` to 2 and calls
`this.bundle()` again at once — two backend compiles (builds 0 and 1)
are active on the same unit at the same instant, refuting the claim as
stated. -/
theorem c2_exclusivity_counterexample :
    (urun T2).inflight.length = 2 ∧ (urun T2).bip = 2 ∧ (urun T2).compiles = 2 := by
  decide

/-- C2 (amended): at most one backend compile is active per unit at any
instant in every trace in which `write()` is never invoked while a build
is in flight; a `write()` issued after `dirty()` while a build is in
flight starts a second concurrent compile
(`c2_exclusivity_counterexample`). -/
theorem c2_exclusivity_amended :
    ∀ E : List UEvent, writesIdle initU E = true →
      (urun E).inflight.length ≤ 1 ∧ (urun E).bip ≤ 1 := by
  intro E h
  obtain ⟨-, -, -, i4, i5, -⟩ := uinv_run E initU uinv_init h
  refine ⟨i5, ?_⟩
  rw [show (urun E).bip = (urun E).inflight.length from i4]
  exact i5

/-- C2, witness: the amended exclusivity bound evaluated on a concrete
well-sequenced trace. -/
theorem c2_exclusivity_amended_witness :
    writesIdle initU [UEvent.write 0, UEvent.complete 0 Outcome.ok,
      UEvent.dirty, UEvent.write 1] = true
    ∧ (urun [UEvent.write 0, UEvent.complete 0 Outcome.ok,
        UEvent.dirty, UEvent.write 1]).inflight.length ≤ 1 :=
  ⟨by decide, (c2_exclusivity_amended _ (by decide)).1⟩

/-! ### Claim C8 -/

/-- C8, counterexample: right after the first `write()` call, the
synchronous prefix of `bundle()` has already reset `_dirty` to `false`
while the compile of build 0 is still executing, and the pending
deferred (deferred 0) is not yet resolved — so `dirty == false` does not
imply the pending future is resolved in states occupied while a build is
executing, refuting the claim as stated. -/
theorem c8_invariant_b_counterexample :
    (urun [UEvent.write 0]).dirty = false
    ∧ (urun [UEvent.write 0]).inflight.length = 1
    ∧ find2 (urun [UEvent.write 0]).cur (urun [UEvent.write 0]).resolved = none := by
  decide

/-- C8 (amended): along every trace in which `write()` is never invoked
while a build is in flight, in every reachable state with no build in
progress, `dirty == false` implies the pending deferred is resolved with
the artifact of the most recent completed build. -/
theorem c8_invariant_b_amended :
    ∀ E : List UEvent, writesIdle initU E = true →
      (urun E).inflight = [] → (urun E).dirty = false →
      ∃ f, find2 (urun E).cur (urun E).resolved = some (Res.val f)
        ∧ (urun E).lastCompleted = some f := by
  intro E h hq hd
  obtain ⟨-, -, -, -, -, -, -, -, -, i10⟩ := uinv_run E initU uinv_init h
  exact i10 hq hd

/-- C8, witness: the amended invariant evaluated after one completed
build. -/
theorem c8_invariant_b_amended_witness :
    writesIdle initU [UEvent.write 0, UEvent.complete 0 Outcome.ok] = true
    ∧ (urun [UEvent.write 0, UEvent.complete 0 Outcome.ok]).inflight = []
    ∧ (urun [UEvent.write 0, UEvent.complete 0 Outcome.ok]).dirty = false
    ∧ ∃ f, find2 (urun [UEvent.write 0, UEvent.complete 0 Outcome.ok]).cur
          (urun [UEvent.write 0, UEvent.complete 0 Outcome.ok]).resolved
          = some (Res.val f)
        ∧ (urun [UEvent.write 0, UEvent.complete 0 Outcome.ok]).lastCompleted = some f :=
  ⟨by decide, by decide, by decide,
   c8_invariant_b_amended _ (by decide) (by decide) (by decide)⟩

/-! ### Claim C9 -/

/-- C9: the coalescing scenario holds on `Bundler.write`.  On an
untouched unit (born dirty) a single `write()` starts exactly one
compile and, once it completes, returns its artifact A1 and resolves the
pending deferred with it.  After one `dirty()` call, two concurrent
`write()` calls start exactly one additional compile (the second call
finds `_dirty` already cleared by the first and returns the current
deferred's promise); when build 1 completes, the first caller returns
the artifact A2 and the second caller's promise settles to the same A2. -/
theorem c9_coalescing_scenario :
    (urun [UEvent.write 0]).compiles = 1
    ∧ find2 0 (urun [UEvent.write 0, UEvent.complete 0 Outcome.ok]).writeRet
        = some (WRet.value (artifact 0))
    ∧ find2 0 (urun [UEvent.write 0, UEvent.complete 0 Outcome.ok]).resolved
        = some (Res.val (artifact 0))
    ∧ (urun T9).compiles = 2
    ∧ find2 1 (urun T9).writeRet = some (WRet.value (artifact 1))
    ∧ find2 2 (urun T9).writeRet = some (WRet.prom 1)
    ∧ settles (urun T9) 1 = some (artifact 1) := by
  decide

/-! ### No-write trace lemmas (for C3 and C4) -/

theorem settlesF_nil (fuel d : Nat) : settlesF [] fuel d = none := by
  cases fuel with
  | zero => rfl
  | succ n => rfl

theorem noWriteEv_cons {e : UEvent} {es : List UEvent}
    (h : noWriteEv (e :: es) = true) :
    isWrite e = false ∧ noWriteEv es = true := by
  rw [noWriteEv, List.all_cons, Bool.and_eq_true] at h
  obtain ⟨h1, h2⟩ := h
  refine ⟨?_, h2⟩
  cases hie : isWrite e with
  | false => rfl
  | true => rw [hie] at h1; cases h1

theorem nowrite_step_quiet {s : UState} {e : UEvent} (hie : isWrite e = false)
    {d : Nat} (hres : find2 d s.resolved = none) (hinf : s.inflight = []) :
    find2 d (ustep s e).resolved = none ∧ (ustep s e).inflight = [] := by
  cases e with
  | write w => cases hie
  | dirty =>
    rw [ustep, (dirtyU_same s).1]
    rw [(dirtyU_same s).2.1]
    exact ⟨hres, hinf⟩
  | complete bid o =>
    rw [ustep, completeU_not_found s bid o (by rw [hinf]; rfl)]
    exact ⟨hres, hinf⟩
  | stop sid =>
    rw [ustep, (stopU_same s sid).1]
    rw [(stopU_same s sid).2.1]
    exact ⟨hres, hinf⟩
  | resumeStop sid =>
    rw [ustep, (resumeStopU_same s sid).1]
    rw [(resumeStopU_same s sid).2.1]
    exact ⟨hres, hinf⟩

theorem nowrite_run_quiet : ∀ (E : List UEvent) (s : UState) (d : Nat),
    noWriteEv E = true → find2 d s.resolved = none → s.inflight = [] →
    find2 d (urunFrom s E).resolved = none ∧ (urunFrom s E).inflight = [] := by
  intro E
  induction E with
  | nil => intro s d _ hres hinf; exact ⟨hres, hinf⟩
  | cons e es ih =>
    intro s d hnw hres hinf
    obtain ⟨h1, h2⟩ := noWriteEv_cons hnw
    obtain ⟨hres', hinf'⟩ := nowrite_step_quiet h1 hres hinf
    exact ih (ustep s e) d h2 hres' hinf'

theorem nowrite_step_blocked {s : UState} {e : UEvent} (hie : isWrite e = false)
    (h1 : s.dirty = true) (h2 : s.inflight = []) (h3 : s.resolved = [])
    (h4 : s.stopDone = []) :
    (ustep s e).dirty = true ∧ (ustep s e).inflight = []
    ∧ (ustep s e).resolved = [] ∧ (ustep s e).stopDone = [] := by
  cases e with
  | write w => cases hie
  | dirty =>
    rw [ustep]
    unfold dirtyU
    rw [if_pos h1]
    exact ⟨h1, h2, h3, h4⟩
  | complete bid o =>
    rw [ustep, completeU_not_found s bid o (by rw [h2]; rfl)]
    exact ⟨h1, h2, h3, h4⟩
  | stop sid =>
    rw [ustep]
    unfold stopU
    split
    · exact ⟨h1, h2, h3, h4⟩
    · split
      · exact ⟨h1, h2, h3, h4⟩
      · next hcond => simp [h1] at hcond
  | resumeStop sid =>
    rw [ustep]
    unfold resumeStopU
    split
    · exact ⟨h1, h2, h3, h4⟩
    · split
      · exact ⟨h1, h2, h3, h4⟩
      · next d hset =>
        rw [settles, h3, settlesF_nil] at hset
        cases hset

theorem nowrite_run_blocked : ∀ (E : List UEvent) (s : UState),
    noWriteEv E = true → s.dirty = true → s.inflight = [] → s.resolved = [] →
    s.stopDone = [] → (urunFrom s E).stopDone = [] := by
  intro E
  induction E with
  | nil => intro s _ _ _ _ h4; exact h4
  | cons e es ih =>
    intro s hnw h1 h2 h3 h4
    obtain ⟨hw, hrest⟩ := noWriteEv_cons hnw
    obtain ⟨g1, g2, g3, g4⟩ := nowrite_step_blocked hw h1 h2 h3 h4
    exact ih (ustep s e) hrest g1 g2 g3 g4

/-! ### Claim C3 -/

/-- C3, counterexample: `write()` starts build 0; `dirty()` during the
build allocates the fresh deferred 1; build 0 completes.  The completion
chains the superseded deferred 0 to deferred 1 but starts no further
build — the unit is left dirty with no build in flight, the compile
count is still 1 (no "exactly one more build"), and deferred 1 is
unresolved, refuting the claim (`Bundler.dirty` schedules nothing). -/
theorem c3_dirty_followup_counterexample :
    (urun T3).dirty = true ∧ (urun T3).inflight = [] ∧ (urun T3).compiles = 1
    ∧ find2 1 (urun T3).resolved = none
    ∧ find2 0 (urun T3).resolved = some (Res.chain 1) := by
  decide

/-- C3 (amended): `dirty()` during an in-progress build does not cancel
it (the in-flight build set and `buildsInProgress` are untouched), and
when that build completes its superseded deferred is chained to the
fresh one, but no further build starts by itself: along every
continuation without a `write()` call the fresh deferred stays
unresolved and no build runs; a subsequent caller-issued `write()`
performs the next build, which resolves the fresh deferred (and,
through the chain, the superseded one) with its artifact. -/
theorem c3_dirty_followup_amended :
    (∀ s : UState, (ustep s UEvent.dirty).inflight = s.inflight
      ∧ (ustep s UEvent.dirty).bip = s.bip)
    ∧ (∀ E : List UEvent, noWriteEv E = true →
        find2 1 (urunFrom (urun T3) E).resolved = none
        ∧ (urunFrom (urun T3) E).inflight = [])
    ∧ find2 1 (urun T3b).resolved = some (Res.val (artifact 1))
    ∧ settles (urun T3b) 0 = some (artifact 1) := by
  refine ⟨?_, ?_, by decide, by decide⟩
  · intro s
    exact ⟨(dirtyU_same s).2.1, (dirtyU_same s).2.2.1⟩
  · intro E h
    exact nowrite_run_quiet E (urun T3) 1 h (by decide) (by decide)

/-- C3, witness: the amended statement evaluated at a concrete state and
a concrete write-free continuation. -/
theorem c3_dirty_followup_amended_witness :
    (ustep initU UEvent.dirty).inflight = initU.inflight
    ∧ noWriteEv [UEvent.dirty, UEvent.stop 9] = true
    ∧ find2 1 (urunFrom (urun T3) [UEvent.dirty, UEvent.stop 9]).resolved = none :=
  ⟨(c3_dirty_followup_amended.1 initU).1, by decide,
   (c3_dirty_followup_amended.2.1 [UEvent.dirty, UEvent.stop 9] (by decide)).1⟩

/-! ### Claim C4 -/

/-- C4, counterexample: `stop()` on a unit that is dirty with no build
in flight and no pending `write()` (here: a freshly created unit, which
is born dirty).  `Bundler.stop` sees `buildsInProgress > 0 || _dirty`
and suspends on the unresolved deferred; it triggers no build (the
compile count stays 0), performs no dispose, and never completes —
refuting both "triggers exactly one terminal build" and "always
resolves". -/
theorem c4_drain_on_stop_counterexample :
    (urun [UEvent.stop 0]).stopDone = []
    ∧ (urun [UEvent.stop 0]).stopWait = [(0, 0)]
    ∧ (urun [UEvent.stop 0]).compiles = 0
    ∧ (urun [UEvent.stop 0]).disposeCount = 0 := by
  decide

/-- C4 (amended): `stop()` never triggers a build itself (it leaves the
compile count and the in-flight set unchanged in every state).  When a
build is in flight, `stop()` suspends on the pending deferred and
resolves after that build completes, disposing the incremental session
exactly once; a second `stop()` afterwards does not dispose again.  But
`stop()` on a dirty unit with no build in flight stays suspended along
every continuation without a `write()` call — it resolves only if some
caller still issues a `write()`. -/
theorem c4_drain_on_stop_amended :
    (∀ (s : UState) (sid : Nat),
      (ustep s (UEvent.stop sid)).compiles = s.compiles
      ∧ (ustep s (UEvent.stop sid)).inflight = s.inflight)
    ∧ ((urun T4).stopDone = [5] ∧ (urun T4).disposeCount = 1
        ∧ (urun T4).incremental = false)
    ∧ ((ustep (urun T4) (UEvent.stop 6)).disposeCount = 1
        ∧ (ustep (urun T4) (UEvent.stop 6)).stopDone = [6, 5])
    ∧ (∀ E : List UEvent, noWriteEv E = true →
        (urunFrom (urun [UEvent.stop 0]) E).stopDone = []) := by
  refine ⟨?_, by decide, by decide, ?_⟩
  · intro s sid
    exact ⟨(stopU_same s sid).2.2.2.2.2.2.2.1, (stopU_same s sid).2.1⟩
  · intro E h
    exact nowrite_run_blocked E (urun [UEvent.stop 0]) h (by decide) (by decide)
      (by decide) (by decide)

/-- C4, witness: the amended statement evaluated at a concrete state and
a concrete write-free continuation. -/
theorem c4_drain_on_stop_amended_witness :
    (ustep initU (UEvent.stop 3)).compiles = initU.compiles
    ∧ noWriteEv [UEvent.dirty, UEvent.resumeStop 0] = true
    ∧ (urunFrom (urun [UEvent.stop 0]) [UEvent.dirty, UEvent.resumeStop 0]).stopDone = [] :=
  ⟨(c4_drain_on_stop_amended.1 initU 3).1, by decide,
   c4_drain_on_stop_amended.2.2.2 [UEvent.dirty, UEvent.resumeStop 0] (by decide)⟩

/-! ### Claim C5 -/

/-- C5: error handling on `Bundler.bundle`.  Whenever an in-flight build
completes with a raised error `m`, the `write()` call returns normally
(the catch branch converts the failure into a value, so nothing is
thrown or rejected): the error message is logged, the caller's captured
deferred gets resolved, and — when the result was not superseded
(`buildsInProgress` back to 0 and not re-dirtied) — it is resolved with
exactly the degraded artifact `console.error(<message>)` plus the empty
sourcemap, which the `write()` call also returns.  The unit is not
poisoned: in the concrete trace `T5`, after the failing first build a
`dirty()` + `write()` cycle performs a normal rebuild whose artifact
resolves the new deferred. -/
theorem c5_error_handling :
    (∀ (s : UState) (bid : Nat) (b : Build) (m : String),
      findBuild bid s.inflight = some b →
      (completeU s bid (Outcome.err m)).errLog = m :: s.errLog
      ∧ (find2 b.wid (completeU s bid (Outcome.err m)).writeRet).isSome = true
      ∧ (find2 b.captured s.resolved = none →
          (find2 b.captured (completeU s bid (Outcome.err m)).resolved).isSome = true)
      ∧ (s.bip = 1 → s.dirty = false → find2 b.captured s.resolved = none →
          find2 b.captured (completeU s bid (Outcome.err m)).resolved
            = some (Res.val (degraded m))
          ∧ find2 b.wid (completeU s bid (Outcome.err m)).writeRet
            = some (WRet.value (degraded m))))
    ∧ ((urun T5).errLog = ["boom"]
        ∧ find2 0 (urun [UEvent.write 0, UEvent.complete 0 (Outcome.err "boom")]).resolved
            = some (Res.val (degraded "boom"))
        ∧ find2 0 (urun [UEvent.write 0, UEvent.complete 0 (Outcome.err "boom")]).writeRet
            = some (WRet.value (degraded "boom"))
        ∧ find2 1 (urun T5).resolved = some (Res.val (artifact 1))
        ∧ find2 1 (urun T5).writeRet = some (WRet.value (artifact 1))) := by
  refine ⟨?_, by decide⟩
  intro s bid b m hf
  unfold completeU
  rw [hf]
  dsimp only
  split
  case isTrue hcond =>
    refine ⟨rfl, ?_, ?_, ?_⟩
    · simp [find2]
    · intro hres
      rw [find2_resolveOnce_self _ _ _ hres]
      rfl
    · intro hbip hdirty hres
      rw [hbip, hdirty] at hcond
      simp at hcond
  case isFalse hcond =>
    refine ⟨rfl, ?_, ?_, ?_⟩
    · simp [find2]
    · intro hres
      rw [find2_resolveOnce_self _ _ _ hres]
      rfl
    · intro hbip hdirty hres
      unfold degraded
      exact ⟨find2_resolveOnce_self _ _ _ hres, by simp [find2]⟩

/-- C5, witness: the error-handling theorem evaluated at the concrete
state reached by one `write()` with its build failing with message
"boom". -/
theorem c5_error_handling_witness :
    findBuild 0 (urun [UEvent.write 0]).inflight = some { id := 0, captured := 0, wid := 0 }
    ∧ find2 0 (completeU (urun [UEvent.write 0]) 0 (Outcome.err "boom")).resolved
        = some (Res.val (degraded "boom")) :=
  ⟨by decide,
   ((c5_error_handling.1 (urun [UEvent.write 0]) 0 { id := 0, captured := 0, wid := 0 }
      "boom" (by decide)).2.2.2 (by decide) (by decide) (by decide)).1⟩

/-! ### Registry lemmas -/

theorem contains_false_of_bound (l : List Nat) (n : Nat)
    (h : ∀ d ∈ l, d < n) : l.contains n = false := by
  induction l with
  | nil => rfl
  | cons x r ih =>
    have hx : x < n := h x (by simp)
    rw [List.contains_cons]
    have hne : (n == x) = false := by
      rw [beq_eq_false_iff_ne]
      omega
    rw [hne, Bool.false_or]
    exact ih fun d hd => h d (by simp [hd])

theorem getOrInitSyncM_same (s : MState) (f : String) :
    (getOrInitSyncM s f).mapDirty = s.mapDirty
    ∧ (getOrInitSyncM s f).mapCur = s.mapCur
    ∧ (getOrInitSyncM s f).mapNextDef = s.mapNextDef
    ∧ (getOrInitSyncM s f).mapResolved = s.mapResolved
    ∧ (getOrInitSyncM s f).blocked = s.blocked
    ∧ (getOrInitSyncM s f).getRet = s.getRet := by
  unfold getOrInitSyncM
  split <;> simp

/-- Invariant of the registry in every reachable state: resolved
deferred identifiers are older than the fresh-name counter, and while
the global dirty flag is set the current barrier deferred is
unresolved. -/
def MInv (s : MState) : Prop :=
  s.mapCur < s.mapNextDef
  ∧ (∀ d ∈ s.mapResolved, d < s.mapNextDef)
  ∧ (s.mapDirty = true → s.mapResolved.contains s.mapCur = false)

theorem minv_init : MInv initM := by
  refine ⟨by decide, ?_, fun _ => rfl⟩
  intro d hd
  cases hd

theorem minv_step (s : MState) (e : MEvent) (h : MInv s) : MInv (mstep s e) := by
  obtain ⟨i1, i2, i3⟩ := h
  cases e with
  | getOrInit t f =>
    rw [mstep]
    split
    · exact ⟨i1, i2, i3⟩
    · exact ⟨i1, i2, i3⟩
  | resumeGet t =>
    rw [mstep]
    split
    · exact ⟨i1, i2, i3⟩
    · split
      · obtain ⟨g1, g2, g3, g4, g5, g6⟩ := getOrInitSyncM_same s _
        refine ⟨?_, ?_, ?_⟩
        · show (getOrInitSyncM s _).mapCur < (getOrInitSyncM s _).mapNextDef
          rw [g2, g3]; exact i1
        · show ∀ d ∈ (getOrInitSyncM s _).mapResolved, d < (getOrInitSyncM s _).mapNextDef
          rw [g3, g4]; exact i2
        · show (getOrInitSyncM s _).mapDirty = true →
            ((getOrInitSyncM s _).mapResolved).contains (getOrInitSyncM s _).mapCur = false
          rw [g1, g2, g4]; exact i3
      · exact ⟨i1, i2, i3⟩
  | getOrInitSync t f =>
    rw [mstep]
    split
    · exact ⟨i1, i2, i3⟩
    · obtain ⟨g1, g2, g3, g4, g5, g6⟩ := getOrInitSyncM_same s f
      refine ⟨?_, ?_, ?_⟩
      · show (getOrInitSyncM s f).mapCur < (getOrInitSyncM s f).mapNextDef
        rw [g2, g3]; exact i1
      · show ∀ d ∈ (getOrInitSyncM s f).mapResolved, d < (getOrInitSyncM s f).mapNextDef
        rw [g3, g4]; exact i2
      · show (getOrInitSyncM s f).mapDirty = true →
          ((getOrInitSyncM s f).mapResolved).contains (getOrInitSyncM s f).mapCur = false
        rw [g1, g2, g4]; exact i3
  | mdirty =>
    rw [mstep]
    split
    · exact ⟨i1, i2, i3⟩
    · refine ⟨by simp, ?_, ?_⟩
      · intro d hd
        have := i2 d hd
        simp
        omega
      · intro _
        exact contains_false_of_bound _ _ i2
  | sync =>
    rw [mstep]
    split
    · exact ⟨i1, i2, i3⟩
    · refine ⟨i1, ?_, ?_⟩
      · intro d hd
        rcases List.mem_cons.mp hd with rfl | hd
        · exact i1
        · exact i2 d hd
      · intro hfalse
        cases hfalse
  | addPotential f =>
    rw [mstep]
    split
    · exact ⟨i1, i2, i3⟩
    · split
      · exact ⟨i1, i2, i3⟩
      · exact ⟨i1, i2, i3⟩

theorem minv_run : ∀ (E : List MEvent) (s : MState), MInv s → MInv (mrunFrom s E) := by
  intro E
  induction E with
  | nil => intro s h; exact h
  | cons e es ih => intro s h; exact ih (mstep s e) (minv_step s e h)

theorem noSync_cons {e : MEvent} {es : List MEvent}
    (h : noSync (e :: es) = true) : isSyncEv e = false ∧ noSync es = true := by
  rw [noSync, List.all_cons, Bool.and_eq_true] at h
  obtain ⟨h1, h2⟩ := h
  refine ⟨?_, h2⟩
  cases hie : isSyncEv e with
  | false => rfl
  | true => rw [hie] at h1; cases h1

theorem mapDirty_step {s : MState} {e : MEvent} (hie : isSyncEv e = false)
    (hd : s.mapDirty = true) : (mstep s e).mapDirty = true := by
  cases e with
  | getOrInit t f => rw [mstep]; split <;> exact hd
  | resumeGet t =>
    rw [mstep]
    split
    · exact hd
    · next x hfind =>
      split
      · dsimp only
        rw [(getOrInitSyncM_same s x.2.1).1]
        exact hd
      · exact hd
  | getOrInitSync t f =>
    rw [mstep]
    split
    · exact hd
    · dsimp only
      rw [(getOrInitSyncM_same s f).1]
      exact hd
  | mdirty =>
    rw [mstep]
    split <;> exact hd
  | sync => cases hie
  | addPotential f =>
    rw [mstep]
    split
    · exact hd
    · split
      · exact hd
      · exact hd

theorem noSync_mapDirty : ∀ (E : List MEvent) (s : MState),
    noSync E = true → s.mapDirty = true → (mrunFrom s E).mapDirty = true := by
  intro E
  induction E with
  | nil => intro s _ hd; exact hd
  | cons e es ih =>
    intro s hns hd
    obtain ⟨h1, h2⟩ := noSync_cons hns
    exact ih (mstep s e) h2 (mapDirty_step h1 hd)

/-- A suspended asynchronous `getOrInit` call remains suspended: there is
an entry for task `t` in `blocked`, every such entry awaits an
unresolved deferred, and `t` has not returned. -/
def BlockedInv (t : Nat) (s : MState) : Prop :=
  (∃ x ∈ s.blocked, x.1 = t)
  ∧ (∀ x ∈ s.blocked, x.1 = t → s.mapResolved.contains x.2.2 = false)
  ∧ find2 t s.getRet = none

theorem blocked_any {t : Nat} {s : MState} (h : ∃ x ∈ s.blocked, x.1 = t) :
    s.blocked.any (fun x => x.1 == t) = true := by
  obtain ⟨x, hm, hx⟩ := h
  exact List.any_eq_true.mpr ⟨x, hm, by simp [hx]⟩

theorem blocked_step {t : Nat} {s : MState} {e : MEvent} (hie : isSyncEv e = false)
    (h : BlockedInv t s) : BlockedInv t (mstep s e) := by
  obtain ⟨h1, h2, h3⟩ := h
  cases e with
  | getOrInit u f =>
    rw [mstep]
    split
    · exact ⟨h1, h2, h3⟩
    · next hused =>
      have hne : u ≠ t := by
        intro heq
        subst heq
        rw [tidUsed, blocked_any h1] at hused
        exact hused (by simp)
      refine ⟨?_, ?_, h3⟩
      · obtain ⟨x, hm, hx⟩ := h1
        exact ⟨x, by simp [hm], hx⟩
      · intro x hx hxt
        rcases List.mem_cons.mp hx with rfl | hx
        · exact absurd hxt hne
        · exact h2 x hx hxt
  | resumeGet u =>
    rw [mstep]
    split
    · exact ⟨h1, h2, h3⟩
    · next x hfind =>
      have hxm : x ∈ s.blocked := List.mem_of_find?_eq_some hfind
      have hxu : x.1 = u := by
        have hp := List.find?_some hfind
        simpa using hp
      split
      · next hcont =>
        have hut : u ≠ t := by
          intro heq
          have hcf := h2 x hxm (by rw [hxu, heq])
          rw [hcf] at hcont
          cases hcont
        obtain ⟨g1, g2, g3, g4, g5, g6⟩ := getOrInitSyncM_same s x.2.1
        dsimp only
        refine ⟨?_, ?_, ?_⟩
        · obtain ⟨y, hm, hy⟩ := h1
          refine ⟨y, ?_, hy⟩
          rw [g5]
          refine List.mem_filter.mpr ⟨hm, ?_⟩
          simp only [hy, bne_iff_ne, ne_eq, decide_not, Bool.not_eq_eq_eq_not,
            Bool.not_false, decide_eq_true_eq]
          exact fun he => hut he.symm
        · rw [g5, g4]
          intro y hy hyt
          exact h2 y (List.mem_filter.mp hy).1 hyt
        · rw [g6]
          simp only [find2]
          rw [if_neg (fun he => hut he.symm)]
          exact h3
      · exact ⟨h1, h2, h3⟩
  | getOrInitSync u f =>
    rw [mstep]
    split
    · exact ⟨h1, h2, h3⟩
    · next hused =>
      have hne : u ≠ t := by
        intro heq
        subst heq
        rw [tidUsed, blocked_any h1] at hused
        exact hused (by simp)
      obtain ⟨g1, g2, g3, g4, g5, g6⟩ := getOrInitSyncM_same s f
      dsimp only
      refine ⟨?_, ?_, ?_⟩
      · obtain ⟨y, hm, hy⟩ := h1
        refine ⟨y, ?_, hy⟩
        rw [g5]; exact hm
      · rw [g5, g4]
        exact h2
      · rw [g6]
        simp only [find2]
        rw [if_neg (fun he => hne he.symm)]
        exact h3
  | mdirty =>
    rw [mstep]
    split
    · exact ⟨h1, h2, h3⟩
    · exact ⟨h1, h2, h3⟩
  | sync => cases hie
  | addPotential f =>
    rw [mstep]
    split
    · exact ⟨h1, h2, h3⟩
    · split
      · exact ⟨h1, h2, h3⟩
      · exact ⟨h1, h2, h3⟩

theorem blocked_run : ∀ (E : List MEvent) (s : MState) (t : Nat),
    noSync E = true → BlockedInv t s → BlockedInv t (mrunFrom s E) := by
  intro E
  induction E with
  | nil => intro s t _ h; exact h
  | cons e es ih =>
    intro s t hns h
    obtain ⟨h1, h2⟩ := noSync_cons hns
    exact ih (mstep s e) t h2 (blocked_step h1 h)

theorem getOrInit_blocked (s : MState) (t : Nat) (f : String) (E : List MEvent)
    (hd : s.mapDirty = true) (ht : tidUsed s t = false) (hE : noSync E = true)
    (hinv : MInv s) :
    find2 t (mrunFrom s (MEvent.getOrInit t f :: E)).getRet = none := by
  have hstep : mstep s (MEvent.getOrInit t f)
      = { s with blocked := (t, f, s.mapCur) :: s.blocked } := by
    rw [mstep]
    rw [if_neg (by rw [ht]; exact fun hc => Bool.noConfusion hc)]
  have hanyfalse : s.blocked.any (fun x => x.1 == t) = false := by
    rw [tidUsed] at ht
    cases hany : s.blocked.any (fun x => x.1 == t) with
    | false => rfl
    | true => rw [hany, Bool.true_or] at ht; cases ht
  have hretnone : find2 t s.getRet = none := by
    rw [tidUsed] at ht
    cases hret : find2 t s.getRet with
    | none => rfl
    | some v => rw [hret] at ht; simp at ht
  have hbi : BlockedInv t (mstep s (MEvent.getOrInit t f)) := by
    rw [hstep]
    refine ⟨⟨(t, f, s.mapCur), by simp, rfl⟩, ?_, hretnone⟩
    intro x hx hxt
    rcases List.mem_cons.mp hx with rfl | hx
    · exact hinv.2.2 hd
    · exfalso
      have hpx : (fun z => z.1 == t) x = true := by simp [hxt]
      have hA : s.blocked.any (fun z => z.1 == t) = true :=
        List.any_eq_true.mpr ⟨x, hx, hpx⟩
      rw [hanyfalse] at hA
      cases hA
  have := blocked_run E (mstep s (MEvent.getOrInit t f)) t hE hbi
  rw [mrunFrom, List.foldl_cons]
  exact this.2.2

theorem mrun_append (P Q : List MEvent) :
    mrun (P ++ Q) = mrunFrom (mrun P) Q := by
  simp only [mrun, mrunFrom, List.foldl_append]

/-! ### Claim C6 -/

/-- C6: barrier ordering holds on `BundlerMap`.  In any reachable
registry state with the global dirty flag set (i.e. after a
`globalDirty()` whose `sync()` has not yet run), an asynchronous
`getOrInit` call suspends on the current barrier deferred, which is
unresolved and is only ever resolved by `sync()`; hence along every
continuation that contains no `sync` event the call has not returned.
It therefore cannot return a unit before the global invalidation has
been propagated, since propagation and resolving the barrier happen in
the same `sync()` step. -/
theorem c6_barrier_ordering :
    ∀ (P E : List MEvent) (t : Nat) (f : String),
      (mrun P).mapDirty = true → tidUsed (mrun P) t = false → noSync E = true →
      find2 t (mrun (P ++ MEvent.getOrInit t f :: E)).getRet = none := by
  intro P E t f hd ht hE
  rw [mrun_append]
  exact getOrInit_blocked (mrun P) t f E hd ht hE (minv_run P initM minv_init)

/-- C6, witness: a `getOrInit` issued right after `globalDirty()` on a
previously synchronized registry has not returned even after the
scheduler tries to resume it. -/
theorem c6_barrier_ordering_witness :
    (mrun [MEvent.sync, MEvent.mdirty]).mapDirty = true
    ∧ find2 0 (mrun ([MEvent.sync, MEvent.mdirty]
        ++ MEvent.getOrInit 0 "a" :: [MEvent.resumeGet 0])).getRet = none :=
  ⟨by decide,
   c6_barrier_ordering [MEvent.sync, MEvent.mdirty] [MEvent.resumeGet 0] 0 "a"
     (by decide) (by decide) (by decide)⟩

/-! ### Claim C7 -/

theorem dirtyU_dirty (b : UState) : (dirtyU b).dirty = true := by
  unfold dirtyU
  split
  · assumption
  · rfl

/-- C7: deferred propagation holds on `BundlerMap`.  `dirty()`
(globalDirty) only touches the registry's own flag and barrier deferred:
the member units are untouched, so members that were clean stay clean
until `sync()`.  `sync()` with the flag clear is a no-op.  `sync()` with
the flag set clears it, calls `dirty()` on every currently realized
unit (marking each dirty), and resolves the barrier deferred, releasing
blocked asynchronous lookups. -/
theorem c7_deferred_propagation :
    ∀ s : MState,
      (mstep s MEvent.mdirty).mapDirty = true
      ∧ (mstep s MEvent.mdirty).bundlers = s.bundlers
      ∧ ((∀ kb ∈ s.bundlers, kb.2.dirty = false) →
          ∀ kb ∈ (mstep s MEvent.mdirty).bundlers, kb.2.dirty = false)
      ∧ (s.mapDirty = false → mstep s MEvent.sync = s)
      ∧ (s.mapDirty = true →
          (mstep s MEvent.sync).bundlers
            = s.bundlers.map (fun kb => (kb.1, dirtyU kb.2))
          ∧ (mstep s MEvent.sync).mapDirty = false
          ∧ (mstep s MEvent.sync).mapResolved.contains s.mapCur = true
          ∧ ∀ kb ∈ (mstep s MEvent.sync).bundlers, kb.2.dirty = true) := by
  intro s
  have h1 : (mstep s MEvent.mdirty).bundlers = s.bundlers := by
    rw [mstep]
    split <;> rfl
  have h0 : (mstep s MEvent.mdirty).mapDirty = true := by
    rw [mstep]
    split <;> first | assumption | rfl
  refine ⟨h0, h1, ?_, ?_, ?_⟩
  · intro hall kb hkb
    rw [h1] at hkb
    exact hall kb hkb
  · intro hclean
    rw [mstep, if_pos hclean]
  · intro hdirty
    have hcond : ¬(s.mapDirty = false) := by
      rw [hdirty]
      exact fun hc => Bool.noConfusion hc
    refine ⟨?_, ?_, ?_, ?_⟩
    · rw [mstep, if_neg hcond]
    · rw [mstep, if_neg hcond]
    · rw [mstep, if_neg hcond]
      show (s.mapCur :: s.mapResolved).contains s.mapCur = true
      rw [List.contains_cons]
      simp
    · intro kb hkb
      rw [mstep, if_neg hcond] at hkb
      rcases List.mem_map.mp hkb with ⟨kb0, _, rfl⟩
      exact dirtyU_dirty kb0.2

/-- Two clean member units, used to evaluate C7 concretely. -/
def cleanUnit : UState := { initU with dirty := false }

/-- A synchronized registry holding the two clean units. -/
def msClean : MState :=
  { mapDirty := false, mapCur := 1, mapNextDef := 2, mapResolved := [1, 0],
    bundlers := [("a", cleanUnit), ("b", cleanUnit)], potentials := [],
    blocked := [], getRet := [] }

/-- `msClean` right after a `globalDirty()`. -/
def msDirty : MState := { msClean with mapDirty := true, mapCur := 2, mapNextDef := 3 }

/-- C7, witness: the propagation theorem evaluated on a concrete
registry with two clean units. -/
theorem c7_deferred_propagation_witness :
    (mstep msDirty MEvent.mdirty).bundlers = msDirty.bundlers
    ∧ (∀ kb ∈ (mstep msDirty MEvent.mdirty).bundlers, kb.2.dirty = false)
    ∧ mstep msClean MEvent.sync = msClean
    ∧ (mstep msDirty MEvent.sync).mapDirty = false
    ∧ (∀ kb ∈ (mstep msDirty MEvent.sync).bundlers, kb.2.dirty = true) :=
  ⟨(c7_deferred_propagation msDirty).2.1,
   (c7_deferred_propagation msDirty).2.2.1 (by decide),
   (c7_deferred_propagation msClean).2.2.2.1 rfl,
   ((c7_deferred_propagation msDirty).2.2.2.2 rfl).2.1,
   ((c7_deferred_propagation msDirty).2.2.2.2 rfl).2.2.2⟩

/-! ### Claim C10 -/

/-- C10: the registry is constructed with the global dirty flag already
set and the barrier deferred unresolved; consequently every asynchronous
`getOrInit` call issued in any trace containing no `sync()` (i.e. before
the first `sync()` on a fresh registry) never returns within that trace,
while the synchronous `getOrInitSync` form returns its unit immediately
in every state. -/
theorem c10_initial_barrier :
    initM.mapDirty = true ∧ initM.mapResolved = []
    ∧ (∀ (P E : List MEvent) (t : Nat) (f : String),
        noSync P = true → noSync E = true → tidUsed (mrun P) t = false →
        find2 t (mrun (P ++ MEvent.getOrInit t f :: E)).getRet = none)
    ∧ (∀ (s : MState) (t : Nat) (f : String), tidUsed s t = false →
        find2 t (mstep s (MEvent.getOrInitSync t f)).getRet = some f) := by
  refine ⟨rfl, rfl, ?_, ?_⟩
  · intro P E t f hP hE ht
    rw [mrun_append]
    refine getOrInit_blocked (mrun P) t f E ?_ ht hE (minv_run P initM minv_init)
    exact noSync_mapDirty P initM hP rfl
  · intro s t f ht
    rw [mstep]
    rw [if_neg (by rw [ht]; exact fun hc => Bool.noConfusion hc)]
    show find2 t ((t, f) :: (getOrInitSyncM s f).getRet) = some f
    rw [find2, if_pos rfl]

/-- C10, witness: on a fresh registry, an asynchronous `getOrInit` has
not returned after a sync-free trace, while `getOrInitSync` returns
immediately. -/
theorem c10_initial_barrier_witness :
    noSync [MEvent.mdirty, MEvent.addPotential "x"] = true
    ∧ find2 0 (mrun ([MEvent.mdirty, MEvent.addPotential "x"]
        ++ MEvent.getOrInit 0 "a" :: [MEvent.resumeGet 0])).getRet = none
    ∧ find2 1 (mstep initM (MEvent.getOrInitSync 1 "b")).getRet = some "b" :=
  ⟨by decide,
   c10_initial_barrier.2.2.1 [MEvent.mdirty, MEvent.addPotential "x"]
     [MEvent.resumeGet 0] 0 "a" (by decide) (by decide) (by decide),
   c10_initial_barrier.2.2.2 initM 1 "b" (by decide)⟩

end KarmaEsbuild
